import Mathlib

/-!
# Verification of the `from_env` configuration library

Shallow embedding of `src/lib.rs`: a small Rust library that merges
configuration values from a `.env`-style key-value file and command-line
arguments into a JSON-like value tree which is then decoded into a target
type.  Strings are modelled as `List Char`, the `BTreeMap<String, String>`
as a key-sorted association list, and `serde_json` scalar values as a
small inductive type.  Machine-integer parsing (`u64`, `i64`) is modelled
with `Nat`/`Int` plus explicit range checks; `f64` parsing is modelled by
the documented decimal grammar together with exact-rational overflow
classification (a decimal magnitude at or above the IEEE round-to-nearest
overflow threshold `(2^54 - 1) * 2^970` parses to an infinity).
-/

namespace FromEnvModel

abbrev Str := List Char

/-- Single-quote character (modelled by code point to keep sources readable). -/
def sq : Char := Char.ofNat 39

/-- Double-quote character. -/
def dq : Char := Char.ofNat 34

/-- Unicode white-space test used by Rust's `str::trim` / `char::is_whitespace`. -/
def isWs (c : Char) : Bool :=
  let n := c.toNat
  n = 0x09 || n = 0x0A || n = 0x0B || n = 0x0C || n = 0x0D || n = 0x20 ||
  n = 0x85 || n = 0xA0 || n = 0x1680 || (0x2000 ≤ n && n ≤ 0x200A) ||
  n = 0x2028 || n = 0x2029 || n = 0x202F || n = 0x205F || n = 0x3000

/-- Rust `str::trim`: drop white space from both ends. -/
def trim (l : Str) : Str :=
  ((l.dropWhile isWs).reverse.dropWhile isWs).reverse

/-- Rust `str::trim_matches(c)`: drop every leading and trailing occurrence of `c`. -/
def trimMatches (c : Char) (l : Str) : Str :=
  ((l.dropWhile (fun a => a == c)).reverse.dropWhile (fun a => a == c)).reverse

/-- The quote-stripping used throughout `lib.rs`:
`.trim_matches('\x27').trim_matches('\x22')` (single quotes first, then double). -/
def unquote (l : Str) : Str :=
  trimMatches dq (trimMatches sq l)

/-- Rust `str::split(c)`: the (nonempty) list of chunks between occurrences of `c`. -/
def splitChar (c : Char) : Str → List Str
  | [] => [[]]
  | a :: rest =>
    if a == c then [] :: splitChar c rest
    else
      match splitChar c rest with
      | [] => [[a]]
      | h :: t => (a :: h) :: t

/-- Strip one trailing carriage return, as Rust `str::lines` does on `\r\n` endings. -/
def stripCr (l : Str) : Str :=
  match l.getLast? with
  | some c => if c = '\r' then l.dropLast else l
  | none => l

/-- Rust `str::lines`: split on `'\n'`, strip a trailing `'\r'` from each terminated
line, and do not produce a final empty line for a trailing newline. -/
def linesOf (l : Str) : List Str :=
  let parts := splitChar '\n' l
  let init := parts.dropLast.map stripCr
  match parts.getLast? with
  | some last => if last = [] then init else init ++ [last]
  | none => init

/-! ## The string map (`BTreeMap<String, String>`) -/

/-- Byte-lexicographic (equivalently code-point-lexicographic) order on strings,
the iteration order of `BTreeMap<String, _>`. -/
def strLt : Str → Str → Bool
  | [], [] => false
  | [], _ :: _ => true
  | _ :: _, [] => false
  | a :: as, b :: bs => decide (a < b) || (a == b && strLt as bs)

/-- `BTreeMap<String, String>` as a key-sorted association list. -/
abbrev KV := List (Str × Str)

/-- `BTreeMap::insert`: overwrite the value if the key is present, otherwise
place the new entry at its sorted position. -/
def insertKV (k v : Str) : KV → KV
  | [] => [(k, v)]
  | (k2, v2) :: rest =>
    if strLt k k2 then (k, v) :: (k2, v2) :: rest
    else if k = k2 then (k, v) :: rest
    else (k2, v2) :: insertKV k v rest

/-- `BTreeMap::get`. -/
def lookupKV (k : Str) : KV → Option Str
  | [] => none
  | (k2, v) :: rest => if k = k2 then some v else lookupKV k rest

/-- The keys of a map. -/
def keysKV (m : KV) : List Str := m.map Prod.fst

/-! ## `kv_from_dotenv`: the file key-value extractor -/

/-- The body of the per-line `filter_map` closure in `kv_from_dotenv`:
trim the line, split on `'='`, reject unless there are exactly two chunks,
trim the key, trim and unquote the value, and reject empty keys or values. -/
def dotenvLine (l : Str) : Option (Str × Str) :=
  let trimmed := trim l
  let split_eq := splitChar '=' trimmed
  if trimmed = [] ∨ split_eq.length ≠ 2 then none
  else
    let key := trim (split_eq.getD 0 [])
    let val := unquote (trim (split_eq.getD 1 []))
    if key = [] ∨ val = [] then none else some (key, val)

/-- Collecting the per-line pairs into a `BTreeMap` (later pairs overwrite earlier). -/
def dotenvParse (content : Str) : KV :=
  ((linesOf content).filterMap dotenvLine).foldl (fun m p => insertKV p.1 p.2 m) []

/-- `kv_from_dotenv`: the argument is the result of `std::fs::read_to_string(".env")`
(`none` models a missing or unreadable file, which yields the empty map). -/
def kv_from_dotenv : Option Str → KV
  | none => []
  | some content => dotenvParse content

/-! ## `kv_from_env`: the argument key-value extractor -/

/-- Rust `a.starts_with("--")`. -/
def startsDashDash : Str → Bool
  | '-' :: '-' :: _ => true
  | _ => false

/-- The loop of `kv_from_env`: `kv` is the map built so far and `kcache` the
pending key (taken at the top of each iteration, as `kcache.take()` does). -/
def kv_from_env_go (kv : KV) (kcache : Option Str) : List Str → KV
  | [] =>
    match kcache with
    | some k => insertKV k "true".toList kv
    | none => kv
  | a :: rest =>
    if startsDashDash a then
      let kv2 :=
        match kcache with
        | some k => insertKV k "true".toList kv
        | none => kv
      kv_from_env_go kv2 (some (unquote (a.drop 2))) rest
    else
      match kcache with
      | some k => kv_from_env_go (insertKV k (unquote a) kv) none rest
      | none => kv_from_env_go kv none rest

/-- `kv_from_env`: the argument is `env::args().skip(1)`, i.e. the process
arguments without the program name. -/
def kv_from_env (args : List Str) : KV :=
  kv_from_env_go [] none args

/-! ## `kv_from_dotenv_and_env`: the precedence merger -/

/-- The merge loop: insert every argument-sourced pair into the file-sourced map. -/
def mergeKV (dotenv env : KV) : KV :=
  env.foldl (fun m p => insertKV p.1 p.2 m) dotenv

/-- `kv_from_dotenv_and_env`, parametrised by the file read result and the
argument list (the two ambient inputs of the Rust function). -/
def kv_from_dotenv_and_env (file : Option Str) (args : List Str) : KV :=
  mergeKV (kv_from_dotenv file) (kv_from_env args)

/-! ## `v_to_json_value`: scalar coercion -/

def isDigit (c : Char) : Bool := decide ('0' ≤ c) && decide (c ≤ '9')

def digVal (c : Char) : Nat := c.toNat - '0'.toNat

def digitsToNat (l : Str) : Nat := l.foldl (fun acc c => acc * 10 + digVal c) 0

/-- Rust `str::parse::<bool>()`: exactly `"true"` or `"false"`. -/
def parseBool (l : Str) : Option Bool :=
  if l = "true".toList then some true
  else if l = "false".toList then some false
  else none

/-- Rust `str::parse::<u64>()`: an optional `'+'` sign followed by one or more
ASCII digits, whose value fits in 64 bits. -/
def parseU64 (l : Str) : Option Nat :=
  let digits := match l with | '+' :: r => r | _ => l
  if !digits.isEmpty && digits.all isDigit then
    let n := digitsToNat digits
    if n < 2 ^ 64 then some n else none
  else none

/-- Rust `str::parse::<i64>()`: an optional sign followed by one or more ASCII
digits, whose value fits in a signed 64-bit integer. -/
def parseI64 (l : Str) : Option Int :=
  let signDigits : Bool × Str :=
    match l with
    | '+' :: r => (false, r)
    | '-' :: r => (true, r)
    | _ => (false, l)
  let neg := signDigits.1
  let digits := signDigits.2
  if !digits.isEmpty && digits.all isDigit then
    let n := digitsToNat digits
    if neg then
      if n ≤ 2 ^ 63 then some (-(n : Int)) else none
    else
      if n ≤ 2 ^ 63 - 1 then some (n : Int) else none
  else none

/-- ASCII lower-casing, for the case-insensitive `inf`/`infinity`/`nan` literals. -/
def toLowerAscii (c : Char) : Char :=
  if decide ('A' ≤ c) && decide (c ≤ 'Z') then Char.ofNat (c.toNat + 32) else c

/-- The result of Rust `str::parse::<f64>()` before rounding: a NaN literal, an
infinity literal, or an exact decimal `± mant * 10 ^ e`. -/
inductive F64Parse where
  | nan : F64Parse
  | inf (neg : Bool) : F64Parse
  | num (neg : Bool) (mant : Nat) (e : Int) : F64Parse
  deriving DecidableEq

/-- Rust `str::parse::<f64>()`, following the documented grammar
`Sign? (inf | infinity | nan | Number)` with
`Number ::= Count DotFrac? Exp? | DotFrac Exp?` where a dot-fraction with no
integral part needs a nonempty fraction, and `Exp ::= (e|E) Sign? Count`. -/
def parseF64 (l : Str) : Option F64Parse :=
  let signRest : Bool × Str :=
    match l with
    | '+' :: t => (false, t)
    | '-' :: t => (true, t)
    | _ => (false, l)
  let neg := signRest.1
  let r := signRest.2
  let low := r.map toLowerAscii
  if low = "inf".toList ∨ low = "infinity".toList then some (.inf neg)
  else if low = "nan".toList then some .nan
  else
    let d1 := r.takeWhile isDigit
    let r1 := r.dropWhile isDigit
    let frac : Bool × Str × Str :=
      match r1 with
      | '.' :: t => (true, t.takeWhile isDigit, t.dropWhile isDigit)
      | _ => (false, [], r1)
    let hasDot := frac.1
    let d2 := frac.2.1
    let r2 := frac.2.2
    if !d1.isEmpty || (hasDot && !d2.isEmpty) then
      let mant := digitsToNat (d1 ++ d2)
      let fe : Int := -(d2.length : Int)
      match r2 with
      | [] => some (.num neg mant fe)
      | c :: t =>
        if c = 'e' ∨ c = 'E' then
          let esignRest : Bool × Str :=
            match t with
            | '+' :: u => (false, u)
            | '-' :: u => (true, u)
            | _ => (false, t)
          let eneg := esignRest.1
          let edigits := esignRest.2
          if !edigits.isEmpty && edigits.all isDigit then
            let ev : Int :=
              if eneg then -(digitsToNat edigits : Int) else (digitsToNat edigits : Int)
            some (.num neg mant (ev + fe))
          else none
        else none
    else none

/-- The IEEE-754 binary64 overflow threshold: a decimal magnitude `m * 10 ^ e`
rounds (to nearest, ties to even) to a finite double iff it is below
`(2 ^ 54 - 1) * 2 ^ 970`, the midpoint between the largest finite double and
`2 ^ 1024`.  Written as a numeral so that it evaluates cheaply; the lemma
`f64Threshold_eq` below checks it against the closed form. -/
def f64Threshold : Nat := 179769313486231580793728971405303415079934132710037826936173778980444968292764750946649017977587207096330286416692887910946555547851940402630657488671505820681908902000708383676273854845817711531764475730270069855571366959622842914819860834936475292719074168444365510704342711559699508093042880177904174497792

/-- Whether the exact decimal `mant * 10 ^ e` rounds to a finite double. -/
def decFinite (mant : Nat) (e : Int) : Bool :=
  if mant = 0 then true
  else if 0 ≤ e then decide (mant * 10 ^ e.toNat < f64Threshold)
  else decide (mant < f64Threshold * 10 ^ (-e).toNat)

/-- Whether `serde_json::Number::from_f64` accepts the parsed value
(it rejects NaN and the infinities). -/
def isFiniteF64 : F64Parse → Bool
  | .nan => false
  | .inf _ => false
  | .num _ mant e => decFinite mant e

/-- `serde_json::Number`, tagged by the constructor used in `v_to_json_value`
(`From<u64>`, `From<i64>`, or `from_f64` on a finite parse result, whose exact
decimal pre-rounding value is recorded). -/
inductive JNumber where
  | fromU64 (n : Nat) : JNumber
  | fromI64 (n : Int) : JNumber
  | fromF64 (neg : Bool) (mant : Nat) (e : Int) : JNumber
  deriving DecidableEq

/-- The scalar `serde_json::Value`s produced by `v_to_json_value`. -/
inductive SValue where
  | bool (b : Bool) : SValue
  | num (n : JNumber) : SValue
  | str (s : Str) : SValue
  deriving DecidableEq

/-- `v_to_json_value`: ordered trial-parsing `bool`, `u64`, `i64`, `f64`
(keeping a float only when `Number::from_f64` accepts it), else the string. -/
def v_to_json_value (v : Str) : SValue :=
  match parseBool v with
  | some e => .bool e
  | none =>
    match parseU64 v with
    | some e => .num (.fromU64 e)
    | none =>
      match parseI64 v with
      | some e => .num (.fromI64 e)
      | none =>
        match parseF64 v with
        | some (.num neg mant ex) =>
          if decFinite mant ex then .num (.fromF64 neg mant ex) else .str v
        | some _ => .str v
        | none => .str v

/-! ## `kv_to_json_value` and `from_env` -/

/-- The `serde_json::Value::Object` built by `kv_to_json_value` (its entries are
always scalars in this program). -/
structure JObject where
  fields : List (Str × SValue)
  deriving DecidableEq

/-- `kv_to_json_value`: coerce every value of the merged map. -/
def kv_to_json_value (kv : KV) : JObject :=
  ⟨kv.map (fun p => (p.1, v_to_json_value p.2))⟩

/-- `T::from_env()`, parametrised by the `serde_json::from_value` decoder for the
target type `T` and by the two ambient inputs (file read result, arguments). -/
def from_env {T : Type} (decode : JObject → Except Str T)
    (file : Option Str) (args : List Str) : Except Str T :=
  decode (kv_to_json_value (kv_from_dotenv_and_env file args))

/-! ## Sanity lemmas about the numeric model -/

theorem f64Threshold_eq : f64Threshold = (2 ^ 54 - 1) * 2 ^ 970 := by
  norm_num [f64Threshold]

/-! ## Lemmas about the map operations -/

/-- First-match option choice, used to state the merge characterisation. -/
def orO (a b : Option Str) : Option Str :=
  match a with
  | some x => some x
  | none => b

theorem lookupKV_insertKV (j k v : Str) (m : KV) :
    lookupKV j (insertKV k v m) = if j = k then some v else lookupKV j m := by
  induction m with
  | nil =>
    simp only [insertKV, lookupKV]
  | cons p rest ih =>
    obtain ⟨k2, v2⟩ := p
    simp only [insertKV]
    by_cases hlt : strLt k k2 = true
    · simp only [hlt, if_true, lookupKV]
    · simp only [hlt, if_false, Bool.false_eq_true]
      by_cases hkk : k = k2
      · subst hkk
        simp only [if_true, lookupKV]
        by_cases hj : j = k
        · simp [hj]
        · simp [hj]
      · simp only [hkk, if_false, lookupKV]
        by_cases hj2 : j = k2
        · subst hj2
          simp only [if_true]
          have hne : ¬ (j = k) := fun h => hkk h.symm
          simp [hne]
        · simp [hj2, ih]

theorem lookupKV_append (j : Str) (xs ys : KV) :
    lookupKV j (xs ++ ys) = orO (lookupKV j xs) (lookupKV j ys) := by
  induction xs with
  | nil => simp [lookupKV, orO]
  | cons p rest ih =>
    obtain ⟨k2, v2⟩ := p
    by_cases hj : j = k2
    · simp [lookupKV, hj, orO]
    · simp [lookupKV, hj, ih]

theorem lookupKV_mergeKV (j : Str) (A F : KV) :
    lookupKV j (mergeKV F A) = orO (lookupKV j A.reverse) (lookupKV j F) := by
  induction A generalizing F with
  | nil => simp [mergeKV, lookupKV, orO]
  | cons p rest ih =>
    obtain ⟨k, v⟩ := p
    have step : mergeKV F ((k, v) :: rest) = mergeKV (insertKV k v F) rest := rfl
    rw [step, ih]
    have hrev : ((k, v) :: rest).reverse = rest.reverse ++ [(k, v)] := by
      simp
    rw [hrev, lookupKV_append]
    cases hA : lookupKV j rest.reverse with
    | some w => simp [orO]
    | none =>
      simp only [orO, lookupKV_insertKV, lookupKV, hA]
      by_cases hj : j = k
      · simp [hj]
      · simp [hj]

theorem lookupKV_eq_none_iff (j : Str) (m : KV) :
    lookupKV j m = none ↔ j ∉ keysKV m := by
  induction m with
  | nil => simp [lookupKV, keysKV]
  | cons p rest ih =>
    obtain ⟨k2, v2⟩ := p
    by_cases hj : j = k2
    · subst hj
      simp [lookupKV, keysKV]
    · simp [lookupKV, hj, keysKV, ih]

theorem lookupKV_reverse_of_nodup (j : Str) (m : KV) (h : (keysKV m).Nodup) :
    lookupKV j m.reverse = lookupKV j m := by
  induction m with
  | nil => rfl
  | cons p rest ih =>
    obtain ⟨k2, v2⟩ := p
    have h' : (k2 :: keysKV rest).Nodup := h
    have hmem : k2 ∉ keysKV rest := (List.nodup_cons.mp h').1
    have hrest : (keysKV rest).Nodup := (List.nodup_cons.mp h').2
    have hrev : ((k2, v2) :: rest).reverse = rest.reverse ++ [(k2, v2)] := by simp
    rw [hrev, lookupKV_append, ih hrest]
    by_cases hj : j = k2
    · subst hj
      have : lookupKV j rest = none := (lookupKV_eq_none_iff j rest).mpr hmem
      simp [this, orO, lookupKV]
    · cases hA : lookupKV j rest with
      | some w => simp [orO, lookupKV, hj, hA]
      | none => simp [orO, lookupKV, hj, hA]

/-! ## Claim theorems -/

/-- C1: the precedence merge of `kv_from_dotenv_and_env` gives every key of the
argument-sourced mapping its argument-sourced value, keeps file-only keys at
their file-sourced value, and introduces no other keys; in particular merging
the file map `{a: 1, b: 2}` with the argument map `{b: 9, c: 3}` yields
`{a: 1, b: 9, c: 3}`. -/
theorem merge_precedence :
    (∀ F A : KV, (keysKV A).Nodup →
      (∀ k v, lookupKV k A = some v → lookupKV k (mergeKV F A) = some v) ∧
      (∀ k, lookupKV k A = none → lookupKV k (mergeKV F A) = lookupKV k F) ∧
      (∀ k, lookupKV k A = none → lookupKV k F = none →
        lookupKV k (mergeKV F A) = none)) ∧
    mergeKV [("a".toList, "1".toList), ("b".toList, "2".toList)]
        [("b".toList, "9".toList), ("c".toList, "3".toList)] =
      [("a".toList, "1".toList), ("b".toList, "9".toList), ("c".toList, "3".toList)] := by
  constructor
  · intro F A hA
    refine ⟨?_, ?_, ?_⟩
    · intro k v hk
      rw [lookupKV_mergeKV, lookupKV_reverse_of_nodup k A hA, hk]
      rfl
    · intro k hk
      rw [lookupKV_mergeKV, lookupKV_reverse_of_nodup k A hA, hk]
      rfl
    · intro k hk hF
      rw [lookupKV_mergeKV, lookupKV_reverse_of_nodup k A hA, hk, hF]
      rfl
  · decide

/-- Witness for C1 at the claim's concrete example: the colliding key `b` takes
the argument-sourced value `9` in the merged map. -/
theorem merge_precedence_witness :
    lookupKV "b".toList
        (mergeKV [("a".toList, "1".toList), ("b".toList, "2".toList)]
          [("b".toList, "9".toList), ("c".toList, "3".toList)]) =
      some "9".toList :=
  (merge_precedence.1 [("a".toList, "1".toList), ("b".toList, "2".toList)]
      [("b".toList, "9".toList), ("c".toList, "3".toList)] (by decide)).1
    "b".toList "9".toList (by decide)

/-- C6: the only error `from_env` can report is a decoding failure: the
extraction, merge and coercion stages are total functions, a missing or
unreadable `.env` file yields the empty mapping, and `from_env` succeeds or
fails exactly as the decoder does on the coerced value tree. -/
theorem from_env_error_only_decoding {T : Type} (decode : JObject → Except Str T)
    (file : Option Str) (args : List Str) :
    kv_from_dotenv none = [] ∧
    from_env decode file args =
      decode (kv_to_json_value (kv_from_dotenv_and_env file args)) ∧
    (∀ t : T, from_env decode file args = Except.ok t ↔
      decode (kv_to_json_value (kv_from_dotenv_and_env file args)) = Except.ok t) ∧
    (∀ e : Str, from_env decode file args = Except.error e ↔
      decode (kv_to_json_value (kv_from_dotenv_and_env file args)) = Except.error e) :=
  ⟨rfl, rfl, fun _ => Iff.rfl, fun _ => Iff.rfl⟩

/-- Two consecutive runs of the full pipeline on the same ambient inputs. -/
def runPipelineTwice {T : Type} (decode : JObject → Except Str T)
    (file : Option Str) (args : List Str) : Except Str T × Except Str T :=
  (from_env decode file args, from_env decode file args)

/-- C8: the pipeline is deterministic and free of hidden state: two runs of
`from_env` with identical file contents, identical argument lists and the same
target decoder return identical results. -/
theorem from_env_deterministic {T : Type} (decode : JObject → Except Str T)
    (file : Option Str) (args : List Str) :
    (runPipelineTwice decode file args).1 = (runPipelineTwice decode file args).2 :=
  rfl

/-- C2: scalar coercion is total (it is a plain function into `SValue`) and
follows ordered trial-parsing: a boolean parse wins, else an unsigned 64-bit
integer parse, else a signed one, else a finite float parse, else the original
string; and on the concrete examples, `true` is a Boolean, `42` and `07`
unsigned integers, `-7` a signed integer, `3.14` a float and `abc` a string. -/
theorem coercion_ordered_total :
    (∀ v b, parseBool v = some b → v_to_json_value v = .bool b) ∧
    (∀ v n, parseBool v = none → parseU64 v = some n →
      v_to_json_value v = .num (.fromU64 n)) ∧
    (∀ v i, parseBool v = none → parseU64 v = none → parseI64 v = some i →
      v_to_json_value v = .num (.fromI64 i)) ∧
    (∀ v neg mant e, parseBool v = none → parseU64 v = none → parseI64 v = none →
      parseF64 v = some (.num neg mant e) → decFinite mant e = true →
      v_to_json_value v = .num (.fromF64 neg mant e)) ∧
    (∀ v, parseBool v = none → parseU64 v = none → parseI64 v = none →
      (∀ r, parseF64 v = some r → isFiniteF64 r = false) →
      v_to_json_value v = .str v) ∧
    (v_to_json_value "true".toList = .bool true ∧
     v_to_json_value "42".toList = .num (.fromU64 42) ∧
     v_to_json_value "-7".toList = .num (.fromI64 (-7)) ∧
     v_to_json_value "3.14".toList = .num (.fromF64 false 314 (-2)) ∧
     v_to_json_value "abc".toList = .str "abc".toList ∧
     v_to_json_value "07".toList = .num (.fromU64 7)) := by
  refine ⟨?_, ?_, ?_, ?_, ?_, ?_⟩
  · intro v b hb
    simp [v_to_json_value, hb]
  · intro v n hb hu
    simp [v_to_json_value, hb, hu]
  · intro v i hb hu hi
    simp [v_to_json_value, hb, hu, hi]
  · intro v neg mant e hb hu hi hf hfin
    simp [v_to_json_value, hb, hu, hi, hf, hfin]
  · intro v hb hu hi hf
    simp only [v_to_json_value, hb, hu, hi]
    cases hp : parseF64 v with
    | none => rfl
    | some r =>
      cases r with
      | nan => rfl
      | inf neg => rfl
      | num neg mant e =>
        have : decFinite mant e = false := hf _ hp
        simp [this]
  · exact ⟨by decide, by decide, by decide, by decide, by decide, by decide⟩

/-- Witness for C2: the ordered trial-parsing conjuncts applied at `42`
(unsigned-integer branch, with the boolean parse failing there). -/
theorem coercion_ordered_total_witness :
    v_to_json_value "42".toList = .num (.fromU64 42) :=
  coercion_ordered_total.2.1 "42".toList 42 (by decide) (by decide)

/-- C7: a string that parses as a 64-bit float whose value is not finite (such
as `NaN`, `inf` and `-inf`) and that parses as neither boolean nor integer is
coerced to a String holding the original input unchanged, not to a Float. -/
theorem nonfinite_float_coerces_to_string :
    (∀ v r, parseBool v = none → parseU64 v = none → parseI64 v = none →
      parseF64 v = some r → isFiniteF64 r = false →
      v_to_json_value v = .str v) ∧
    (v_to_json_value "NaN".toList = .str "NaN".toList ∧
     v_to_json_value "inf".toList = .str "inf".toList ∧
     v_to_json_value "-inf".toList = .str "-inf".toList) := by
  constructor
  · intro v r hb hu hi hp hfin
    simp only [v_to_json_value, hb, hu, hi, hp]
    cases r with
    | nan => rfl
    | inf neg => rfl
    | num neg mant e =>
      have : decFinite mant e = false := hfin
      simp [this]
  · exact ⟨by decide, by decide, by decide⟩

/-- Witness for C7 at the concrete input `NaN`. -/
theorem nonfinite_float_coerces_to_string_witness :
    v_to_json_value "NaN".toList = .str "NaN".toList :=
  nonfinite_float_coerces_to_string.1 "NaN".toList F64Parse.nan
    (by decide) (by decide) (by decide) (by decide) (by decide)

/-! ## The argument extractor as the spec's pending-key state machine -/

/-- One step of the pending-key state machine, as worded in the spec: a KEY
token first commits any pending key with value `true` and becomes pending; a
VALUE token commits the pending key with itself as value, or is discarded when
no key is pending. -/
def argSpecStep (st : KV × Option Str) (a : Str) : KV × Option Str :=
  if startsDashDash a then
    let committed :=
      match st.2 with
      | some k => insertKV k "true".toList st.1
      | none => st.1
    (committed, some (unquote (a.drop 2)))
  else
    match st.2 with
    | some k => (insertKV k (unquote a) st.1, none)
    | none => (st.1, none)

/-- The spec's argument state machine: scan left to right from an empty map and
no pending key, and commit a still-pending key with value `true` at the end. -/
def argSpecMachine (args : List Str) : KV :=
  let st := args.foldl argSpecStep ([], none)
  match st.2 with
  | some k => insertKV k "true".toList st.1
  | none => st.1

theorem kv_from_env_go_eq_foldl (args : List Str) :
    ∀ (kv : KV) (kcache : Option Str),
      kv_from_env_go kv kcache args =
        (match (args.foldl argSpecStep (kv, kcache)).2 with
          | some k => insertKV k "true".toList (args.foldl argSpecStep (kv, kcache)).1
          | none => (args.foldl argSpecStep (kv, kcache)).1) := by
  induction args with
  | nil =>
    intro kv kcache
    cases kcache <;> rfl
  | cons a rest ih =>
    intro kv kcache
    simp only [List.foldl_cons]
    by_cases hd : startsDashDash a = true
    · simp only [kv_from_env_go, hd, if_true, argSpecStep]
      cases kcache <;> exact ih _ _
    · simp only [kv_from_env_go, hd, if_false, argSpecStep, Bool.false_eq_true]
      cases kcache <;> exact ih _ _

/-- C3: the argument key-value extractor is exactly the spec's one-pending-key
state machine (KEY after KEY commits the first as a `true` flag, KEY then VALUE
commits the pair, an orphan VALUE is discarded, a trailing pending KEY is
committed as `true`, later occurrences of a key overwrite earlier ones via the
map insert), and on `["--flag", "--name", "bob", "--verbose"]` it produces
`{flag: true, name: bob, verbose: true}`. -/
theorem arg_extractor_state_machine :
    (∀ args : List Str, kv_from_env args = argSpecMachine args) ∧
    kv_from_env ["--flag".toList, "--name".toList, "bob".toList, "--verbose".toList] =
      [("flag".toList, "true".toList), ("name".toList, "bob".toList),
       ("verbose".toList, "true".toList)] := by
  constructor
  · intro args
    exact kv_from_env_go_eq_foldl args [] none
  · decide

/-- C10: unlike the file extractor, the argument extractor never filters empty
keys: the argument `--` (or `--` followed only by quote characters) commits the
empty-string key, with value `true` or with the following value token; the file
extractor by contrast drops a line whose key is empty. -/
theorem empty_key_committed :
    kv_from_env [['-', '-']] = [([], "true".toList)] ∧
    (∀ v : Str, startsDashDash v = false →
      lookupKV [] (kv_from_env [['-', '-'], v]) = some (unquote v)) ∧
    kv_from_env [['-', '-', sq, sq]] = [([], "true".toList)] ∧
    kv_from_dotenv (some (" = value".toList)) = [] := by
  refine ⟨by decide, ?_, by decide, by decide⟩
  intro v hv
  simp only [kv_from_env, kv_from_env_go, hv, if_false, Bool.false_eq_true]
  have h2 : startsDashDash ['-', '-'] = true := rfl
  simp only [h2, if_true]
  simp [kv_from_env_go, hv, unquote, trimMatches, lookupKV_insertKV, lookupKV]

/-- Witness for C10: the orphan `--` key takes the following token `bob` as its
value under the empty-string key. -/
theorem empty_key_committed_witness :
    lookupKV [] (kv_from_env [['-', '-'], "bob".toList]) = some "bob".toList := by
  have h := empty_key_committed.2.1 "bob".toList (by decide)
  rw [h]
  decide

/-! ## The file extractor as the spec's per-line rules -/

/-- Number of occurrences of a character in a string. -/
def countChar (c : Char) : Str → Nat
  | [] => 0
  | a :: rest => (if a == c then 1 else 0) + countChar c rest

theorem splitChar_length (c : Char) (l : Str) :
    (splitChar c l).length = countChar c l + 1 := by
  induction l with
  | nil => simp [splitChar, countChar]
  | cons a rest ih =>
    by_cases h : a == c
    · simp only [splitChar, h, if_true, List.length_cons, countChar, ih]
      omega
    · cases hs : splitChar c rest with
      | nil => rw [hs] at ih; simp at ih
      | cons hd tl =>
        rw [hs] at ih
        simp only [List.length_cons] at ih
        simp [splitChar, h, hs, countChar]
        omega

theorem splitChar_count_zero (c : Char) (l : Str) (h : countChar c l = 0) :
    splitChar c l = [l] := by
  induction l with
  | nil => rfl
  | cons a rest ih =>
    by_cases ha : a == c
    · simp [countChar, ha] at h
    · have hr : countChar c rest = 0 := by simpa [countChar, ha] using h
      simp [splitChar, ha, ih hr]

theorem splitChar_count_one (c : Char) (l : Str) (h : countChar c l = 1) :
    splitChar c l =
      [l.takeWhile (fun a => !(a == c)), (l.dropWhile (fun a => !(a == c))).drop 1] := by
  induction l with
  | nil => simp [countChar] at h
  | cons a rest ih =>
    by_cases ha : a == c
    · have hr : countChar c rest = 0 := by simpa [countChar, ha] using h
      simp [splitChar, ha, splitChar_count_zero c rest hr, List.takeWhile_cons,
        List.dropWhile_cons]
    · have hr : countChar c rest = 1 := by simpa [countChar, ha] using h
      have hs := ih hr
      simp [splitChar, ha, hs, List.takeWhile_cons, List.dropWhile_cons, List.drop_one]

/-- The spec's per-line rule for the file extractor: trim the line, skip it if
it is empty or does not contain exactly one `=` character, split it at that
`=`, trim key and value, unquote the value, and skip the pair if either side
is then empty. -/
def dotenvSpecLine (l : Str) : Option (Str × Str) :=
  let t := trim l
  if t = [] then none
  else if countChar '=' t ≠ 1 then none
  else
    let k0 := t.takeWhile (fun a => !(a == '='))
    let v0 := (t.dropWhile (fun a => !(a == '='))).drop 1
    let key := trim k0
    let val := unquote (trim v0)
    if key = [] ∨ val = [] then none else some (key, val)

/-- The spec's file extractor: process each line independently and insert the
surviving pairs, later duplicates overwriting earlier ones. -/
def dotenvSpecParse (content : Str) : KV :=
  ((linesOf content).filterMap dotenvSpecLine).foldl (fun m p => insertKV p.1 p.2 m) []

theorem dotenvLine_eq_spec (l : Str) : dotenvLine l = dotenvSpecLine l := by
  unfold dotenvLine dotenvSpecLine
  by_cases h0 : trim l = []
  · rw [h0]
    simp [splitChar, countChar]
  · by_cases h1 : countChar '=' (trim l) = 1
    · have hpair := splitChar_count_one '=' (trim l) h1
      simp [hpair, h0, h1]
    · have hlen : (splitChar '=' (trim l)).length ≠ 2 := by
        rw [splitChar_length]
        omega
      simp [h0, h1, hlen]

/-- C4: the file key-value extractor processes each line independently by the
spec's trim/skip/split/unquote rules with later duplicate keys overwriting
earlier ones, and the four-line example file yields exactly
`{key1: value1, key2: value2}`. -/
theorem dotenv_per_line_processing :
    (∀ content : Str, kv_from_dotenv (some content) = dotenvSpecParse content) ∧
    kv_from_dotenv (some ("key1 = ".toList ++ [sq] ++ "value1".toList ++ [sq, '\n'] ++
        "badline".toList ++ ['\n'] ++ "key2=value2".toList ++ ['\n', '\n'])) =
      [("key1".toList, "value1".toList), ("key2".toList, "value2".toList)] := by
  constructor
  · intro content
    show dotenvParse content = dotenvSpecParse content
    unfold dotenvParse dotenvSpecParse
    rw [funext dotenvLine_eq_spec]
  · decide

/-- C9: the `=`-count check of the file extractor runs before quote stripping,
so quotes do not protect `=` characters: any line whose trimmed text holds two
or more `=` characters is silently skipped, and in particular the file
`url = "a=b"` yields the empty mapping. -/
theorem quoted_equals_not_protected :
    (∀ l : Str, 2 ≤ countChar '=' (trim l) → dotenvLine l = none) ∧
    kv_from_dotenv (some ("url = ".toList ++ [dq] ++ "a=b".toList ++ [dq])) = [] := by
  constructor
  · intro l h
    have hlen : (splitChar '=' (trim l)).length ≠ 2 := by
      rw [splitChar_length]
      omega
    unfold dotenvLine
    simp [hlen]
  · decide

/-- Witness for C9 at the concrete line `url = "a=b"`: its two `=` characters
make the extractor drop it. -/
theorem quoted_equals_not_protected_witness :
    dotenvLine ("url = ".toList ++ [dq] ++ "a=b".toList ++ [dq]) = none :=
  quoted_equals_not_protected.1 ("url = ".toList ++ [dq] ++ "a=b".toList ++ [dq])
    (by decide)

/-! ## Quote stripping strips every layer, not one -/

theorem dropWhile_replicate_append (c : Char) (i : Nat) (t : Str) :
    (List.replicate i c ++ t).dropWhile (fun a => a == c) =
      t.dropWhile (fun a => a == c) := by
  induction i with
  | zero => simp
  | succ n ih => simp [List.replicate_succ, List.dropWhile_cons, ih]

theorem trimMatches_replicate_layers (c : Char) (x : Str) (i j : Nat)
    (h1 : ∀ d, x.head? = some d → d ≠ c) (h2 : ∀ d, x.getLast? = some d → d ≠ c) :
    trimMatches c (List.replicate i c ++ x ++ List.replicate j c) = x := by
  unfold trimMatches
  rw [List.append_assoc, dropWhile_replicate_append]
  cases hx : x with
  | nil =>
    have : (List.replicate j c).dropWhile (fun a => a == c) = ([] : Str) := by
      have h := dropWhile_replicate_append c j ([] : Str)
      rw [List.append_nil] at h
      simp only [List.dropWhile_nil] at h
      exact h
    simp [this]
  | cons d t =>
    have hd : d ≠ c := h1 d (by rw [hx]; rfl)
    have hdb : (d == c) = false := by simpa using hd
    rw [← hx]
    have hstep : (x ++ List.replicate j c).dropWhile (fun a => a == c)
        = x ++ List.replicate j c := by
      rw [hx]
      simp [List.dropWhile_cons, hdb]
    rw [hstep, List.reverse_append, List.reverse_replicate, dropWhile_replicate_append]
    cases he : x.reverse with
    | nil =>
      rw [hx] at he
      simp at he
    | cons e r =>
      have hlast : x.getLast? = some e := by
        rw [← List.head?_reverse, he]
        rfl
      have heb : (e == c) = false := by simpa using h2 e hlast
      rw [List.dropWhile_cons, heb]
      simp [← he]

/-- C5 counterexample: the claim says unquoting removes exactly one matching
outer pair of quotes, so the file value `''x''` would become `'x'`; the code
strips every layer, and the value becomes `x` instead. -/
theorem unquote_one_layer_cex :
    unquote [sq, sq, 'x', sq, sq] = ['x'] ∧
    lookupKV "k".toList
        (kv_from_dotenv (some ("k = ".toList ++ [sq, sq, 'x', sq, sq]))) =
      some ['x'] ∧
    ¬ (['x'] = [sq, 'x', sq]) := by
  decide

/-- C5 amended: for every file value and every argument KEY or VALUE token,
quote stripping removes ALL leading and trailing single-quote characters and
then all leading and trailing double-quote characters, not just one matching
pair: wrapping a quote-free-ended string in any number of layers of one quote
character leaves exactly that string, so `''x''` becomes `x`. -/
theorem unquote_strips_all_quote_layers :
    (∀ (c : Char) (x : Str) (i j : Nat),
      (∀ d, x.head? = some d → d ≠ c) → (∀ d, x.getLast? = some d → d ≠ c) →
      trimMatches c (List.replicate i c ++ x ++ List.replicate j c) = x) ∧
    kv_from_dotenv (some ("k = ".toList ++ [sq, sq, 'x', sq, sq])) =
      [("k".toList, ['x'])] := by
  exact ⟨trimMatches_replicate_layers, by decide⟩

/-- Witness for the amended C5: two layers of single quotes around `x` are both
stripped. -/
theorem unquote_strips_all_quote_layers_witness :
    trimMatches sq (List.replicate 2 sq ++ ['x'] ++ List.replicate 2 sq) = ['x'] :=
  unquote_strips_all_quote_layers.1 sq ['x'] 2 2
    (by intro d hd; cases hd; decide) (by intro d hd; cases hd; decide)

end FromEnvModel
